import Mathlib

/-!
Shallow embedding of the questrade-asset-tracker core (src/assets.rs,
src/db.rs, src/questrade_api.rs, src/asset_tracker.rs) and proofs about it.

Rust f64 values carried by positions and buckets are modelled by exact
rationals; where IEEE special values (NaN, infinities) are behaviourally
relevant (division by a zero total, `partial_cmp` panics) an explicit
four-constructor float model `F` is used.
-/

namespace QAT

/-- IEEE-style float model: finite value (idealised as an exact rational),
NaN, +infinity, -infinity. -/
inductive F where
  | fin (q : ℚ)
  | nan
  | inf
  | ninf
deriving DecidableEq, Repr

/-- Terminal colours produced by the `colored` crate calls used in the code. -/
inductive Colour where
  | green
  | yellow
  | red
  | normal
deriving DecidableEq, Repr

/-- Asset classes, from src/assets.rs `enum AssetClass`. -/
inductive AssetClass where
  | Stocks
  | Bonds
  | Cash
deriving DecidableEq, Repr

/-- Deviation bands used by the spec to name the three colours of
`colour_percent` (green / yellow / red). -/
inductive Band where
  | OnTarget
  | Warning
  | Error
deriving DecidableEq, Repr

/-- Absolute value on rationals, written out as the source writes
`diff.abs()` so concrete instances evaluate by unfolding. -/
def qabs (q : ℚ) : ℚ :=
  if q < 0 then -q else q

/-- Rust `f64::round`: round half away from zero, on the rational model. -/
def roundHalfAway (q : ℚ) : ℤ :=
  if 0 ≤ q then ⌊q + 1/2⌋ else -⌊-q + 1/2⌋

/-- `(x * 100.0).round() / 100.0`, the two-decimal rounding used by
`colour_percent` and `colour_pnl` in the source. -/
def roundTwo (q : ℚ) : ℚ :=
  (roundHalfAway (q * 100) : ℚ) / 100

/-- Association-list lookup (the map content of a Rust `HashMap`; insertion
order is tracked so that all iteration orders can be related to it). -/
def alookup {α β : Type} [DecidableEq α] : List (α × β) → α → Option β
  | [], _ => none
  | (k, v) :: rest, a => if k = a then some v else alookup rest a

/-- `map.entry(k).and_modify(|(c,v)| add).or_insert((c,v))` from
`Assets::add_positions`: add to the bucket for `k` if present, else append a
new bucket. Preserves first-insertion order of keys. -/
def entryAdd {α : Type} [DecidableEq α] :
    List (α × ℚ × ℚ) → α → ℚ → ℚ → List (α × ℚ × ℚ)
  | [], k, c, v => [(k, c, v)]
  | (k2, c2, v2) :: rest, k, c, v =>
    if k2 = k then (k2, c2 + c, v2 + v) :: rest
    else (k2, c2, v2) :: entryAdd rest k c v

/-- Sum of the market-value component of a bucket list. -/
def sumVals {α : Type} (l : List (α × ℚ × ℚ)) : ℚ :=
  (l.map (fun x => x.2.2)).sum

/-- Sum of the book-cost component of a bucket list. -/
def sumCosts {α : Type} (l : List (α × ℚ × ℚ)) : ℚ :=
  (l.map (fun x => x.2.1)).sum

/-- A position record, from src/asset_tracker.rs / src/questrade_api.rs
`struct Position` (f64 fields idealised as rationals). -/
structure Position where
  symbol : String
  symbol_id : ℕ
  open_quantity : ℚ
  closed_quantity : ℚ
  current_market_value : ℚ
  current_price : ℚ
  average_entry_price : ℚ
  closed_pnl : ℚ
  open_pnl : ℚ
  total_cost : ℚ
deriving DecidableEq, Repr

/-- The aggregation state, from src/assets.rs `struct Assets`. The two
`HashMap`s are modelled by association lists in key-first-insertion order;
the colour map is omitted (colours are derived from the class directly). -/
structure Assets where
  total_costs : ℚ
  total_market_values : ℚ
  asset_to_class_map : List (String × AssetClass)
  asset_map : List (String × ℚ × ℚ)
  class_map : List (AssetClass × ℚ × ℚ)
deriving Repr

/-- `Assets::new` (src/assets.rs lines 38-78): hard-coded classification map,
empty buckets, zero totals. -/
def Assets.new : Assets :=
  { total_costs := 0
    total_market_values := 0
    asset_to_class_map :=
      [("XEQT.TO", AssetClass.Stocks), ("ZEQT.TO", AssetClass.Stocks),
       ("ZAG.TO", AssetClass.Bonds)]
    asset_map := []
    class_map := [] }

/-- `self.asset_to_class_map.get(&symbol).unwrap_or(&AssetClass::Cash)`. -/
def Assets.classify (a : Assets) (symbol : String) : AssetClass :=
  (alookup a.asset_to_class_map symbol).getD AssetClass.Cash

/-- The body of the `for position in positions` loop of
`Assets::add_positions` (src/assets.rs lines 81-108), for one position. -/
def Assets.add_position (a : Assets) (p : Position) : Assets :=
  { a with
    total_costs := a.total_costs + p.total_cost
    total_market_values := a.total_market_values + p.current_market_value
    asset_map := entryAdd a.asset_map p.symbol p.total_cost p.current_market_value
    class_map :=
      entryAdd a.class_map (a.classify p.symbol) p.total_cost p.current_market_value }

/-- `Assets::add_positions` (src/assets.rs lines 80-109). -/
def Assets.add_positions (a : Assets) (positions : List Position) : Assets :=
  positions.foldl Assets.add_position a

/-! ### IEEE float operations used by the display path -/

/-- f64 multiplication on the float model (finite arithmetic idealised as
exact; NaN and infinity propagation follows IEEE 754). -/
def F.mul : F → F → F
  | .nan, _ => .nan
  | _, .nan => .nan
  | .fin a, .fin b => .fin (a * b)
  | .fin a, .inf => if 0 < a then .inf else if a < 0 then .ninf else .nan
  | .fin a, .ninf => if 0 < a then .ninf else if a < 0 then .inf else .nan
  | .inf, .fin b => if 0 < b then .inf else if b < 0 then .ninf else .nan
  | .ninf, .fin b => if 0 < b then .ninf else if b < 0 then .inf else .nan
  | .inf, .inf => .inf
  | .inf, .ninf => .ninf
  | .ninf, .inf => .ninf
  | .ninf, .ninf => .inf

/-- f64 division on the float model: division by zero yields NaN for a zero
numerator and a signed infinity otherwise, as in IEEE 754 (signed zero is not
modelled; a zero denominator behaves as +0.0). -/
def F.div : F → F → F
  | .nan, _ => .nan
  | _, .nan => .nan
  | .fin a, .fin b =>
    if b = 0 then (if a = 0 then .nan else if 0 < a then .inf else .ninf)
    else .fin (a / b)
  | .fin _, .inf => .fin 0
  | .fin _, .ninf => .fin 0
  | .inf, .fin b => if b < 0 then .ninf else .inf
  | .ninf, .fin b => if b < 0 then .inf else .ninf
  | .inf, .inf => .nan
  | .inf, .ninf => .nan
  | .ninf, .inf => .nan
  | .ninf, .ninf => .nan

/-- `(pnl * 100.0).round() / 100.0` on the float model: rounding maps NaN to
NaN and infinities to themselves. -/
def F.roundTwo : F → F
  | .fin q => .fin (QAT.roundTwo q)
  | x => x

/-- `0.0.partial_cmp(&x)` from the source: `none` exactly when `x` is NaN
(the `.unwrap()` in the source panics there). -/
def F.cmpZero : F → Option Ordering
  | .nan => none
  | .inf => some .lt
  | .ninf => some .gt
  | .fin q => if (0:ℚ) < q then some .lt else if q < 0 then some .gt else some .eq

/-- `colour_pnl` (src/questrade_api.rs lines 318-326, src/asset_tracker.rs
lines 174-182): rounds to two decimals, then matches
`0.0.partial_cmp(&pnl).unwrap()`. `none` models the `unwrap` panic. -/
def colour_pnl (pnl : F) : Option Colour :=
  match F.cmpZero (F.roundTwo pnl) with
  | none => none
  | some .lt => some .green
  | some .eq => some .normal
  | some .gt => some .red

/-! ### Classification colours / deviation bands -/

/-- The per-class targets `STOCK_TARGET`, `BOND_TARGET`, `CASH_TARGET`
(src/assets.rs lines 5-7). -/
def targetOf : AssetClass → ℚ
  | .Stocks => 50
  | .Bonds => 50
  | .Cash => 0

/-- `MARGIN_OF_WARNING` (src/assets.rs line 8). -/
def MARGIN_OF_WARNING : ℚ := 5/2

/-- `MARGIN_OF_ERROR` (src/assets.rs line 9). -/
def MARGIN_OF_ERROR : ℚ := 5

/-- `Assets::colour_percent` (src/assets.rs lines 130-144): rounds the
percentage to two decimals, takes `diff = target - percent`, and colours by
`diff.abs()` against the two margins. -/
def colour_percent (percent : ℚ) (asset_class : AssetClass) : Colour :=
  let p := QAT.roundTwo percent
  let diff := targetOf asset_class - p
  if qabs diff < MARGIN_OF_WARNING then .green
  else if qabs diff ≥ MARGIN_OF_ERROR then .red
  else .yellow

/-- The spec names the three colours of `colour_percent` as deviation bands:
green = OnTarget, yellow = Warning, red = Error. -/
def deviationBand (percent : ℚ) (asset_class : AssetClass) : Band :=
  match colour_percent percent asset_class with
  | .green => .OnTarget
  | .yellow => .Warning
  | .red => .Error
  | .normal => .OnTarget

/-! ### Sorting and the summary rows -/

/-- `vec.sort_by(|a, b| b.2.total_cmp(&a.2))` from `get_asset_comp` /
`get_simplified_comp` (src/assets.rs lines 146-166): a stable sort by
descending market value. Its input is the `HashMap` iteration sequence. -/
def sortByValDesc {α : Type} (l : List (α × ℚ × ℚ)) : List (α × ℚ × ℚ) :=
  l.mergeSort (fun a b => b.2.2 ≤ a.2.2)

/-- `Assets::get_asset_comp` applied to one admissible `HashMap` iteration
sequence `iter` of the symbol buckets (Rust `HashMap` iteration order is
unspecified, so it is a parameter). -/
def get_asset_comp (iter : List (String × ℚ × ℚ)) : List (String × ℚ × ℚ) :=
  sortByValDesc iter

/-- `Assets::get_simplified_comp` applied to one admissible `HashMap`
iteration sequence of the class buckets. -/
def get_simplified_comp (iter : List (AssetClass × ℚ × ℚ)) :
    List (AssetClass × ℚ × ℚ) :=
  sortByValDesc iter

/-- The rows written by `Assets::display_asset_comp` (src/assets.rs lines
168-195): each sorted bucket with its percentage
`mkt_val / self.total_market_values * 100.0`, computed in f64. -/
def display_asset_comp (iter : List (String × ℚ × ℚ)) (total_market_values : ℚ) :
    List (String × ℚ × ℚ × F) :=
  (get_asset_comp iter).map fun x =>
    (x.1, x.2.1, x.2.2, F.mul (F.div (F.fin x.2.2) (F.fin total_market_values)) (F.fin 100))

/-- The rows written by `Assets::display_simplified_comp` (src/assets.rs
lines 197-224): each sorted class bucket with its percentage and the colour
`colour_percent` gives it. The percentage handed to `colour_percent` is the
f64 quotient; its finite part is used (a NaN percentage is outside the
rational model of `colour_percent` and arises only for a zero total). -/
def display_simplified_comp (iter : List (AssetClass × ℚ × ℚ))
    (total_market_values : ℚ) : List (AssetClass × ℚ × ℚ × F) :=
  (get_simplified_comp iter).map fun x =>
    (x.1, x.2.1, x.2.2, F.mul (F.div (F.fin x.2.2) (F.fin total_market_values)) (F.fin 100))

/-! ### Positions table with dividends (src/questrade_api.rs lines 253-316,
src/asset_tracker.rs lines 100-168) -/

/-- An instrument record, from `struct Symbol`. -/
structure Symbol where
  symbol : String
  symbol_id : ℕ
  dividend : ℚ
  yield_ : ℚ
deriving DecidableEq, Repr

/-- One printed row of `display_positions_with_dividends`. -/
structure PositionRow where
  symbol : String
  quantity : ℚ
  average_entry_price : ℚ
  total_cost : ℚ
  current_price : ℚ
  current_market_value : ℚ
  dividend : ℚ
  yield_ : ℚ
  pnl : ℚ
deriving DecidableEq, Repr

/-- The body of the `for position in positions` loop of
`display_positions_with_dividends`: dividend and yield default to 0 when the
symbol map lacks the id; quantity is `closed_quantity` unless that is zero;
P&L is `closed_pnl` unless that is zero. -/
def positionRow (symbols : List (ℕ × Symbol)) (position : Position) : PositionRow :=
  let dy := match alookup symbols position.symbol_id with
    | some s => (s.dividend, s.yield_)
    | none => ((0:ℚ), (0:ℚ))
  { symbol := position.symbol
    quantity :=
      if position.closed_quantity = 0 then position.open_quantity
      else position.closed_quantity
    average_entry_price := position.average_entry_price
    total_cost := position.total_cost
    current_price := position.current_price
    current_market_value := position.current_market_value
    dividend := dy.1
    yield_ := dy.2
    pnl := if position.closed_pnl = 0 then position.open_pnl else position.closed_pnl }

/-- The full row list printed by `display_positions_with_dividends`, with the
running totals of book cost and market value. -/
def display_positions_with_dividends (positions : List Position)
    (symbols : List (ℕ × Symbol)) : List PositionRow × ℚ × ℚ :=
  (positions.map (positionRow symbols),
   (positions.map Position.total_cost).sum,
   (positions.map Position.current_market_value).sum)

/-! ### Credential store (src/db.rs) -/

/-- `struct RefreshToken` (src/db.rs lines 5-9). -/
structure RefreshToken where
  id : ℤ
  refresh_token : String
deriving DecidableEq, Repr

/-- `DatabaseAPI::update_refresh_token` (src/db.rs lines 55-67): executes
`UPDATE refresh_token SET refresh_token = ? WHERE id = ?`. The table is the
list of rows; the statement rewrites every row whose id matches and the query
itself always succeeds (sqlx errors model transport failures, not a value
comparison — there is none in the statement). -/
def update_refresh_token (table : List RefreshToken) (refresh_token : RefreshToken)
    (new_value : String) : List RefreshToken × Except String Unit :=
  (table.map fun row =>
      if row.id = refresh_token.id then { row with refresh_token := new_value }
      else row,
   Except.ok ())

/-! ### Token rotation (src/questrade_api.rs lines 46-64) -/

/-- `struct OAuth2Token` (src/questrade_api.rs lines 210-217). -/
structure OAuth2Token where
  access_token : String
  token_type : String
  expires_in : ℕ
  refresh_token : String
  api_server : String
deriving DecidableEq, Repr

/-- Observable operations of a run: reading the stored refresh token,
exchanging it, persisting the replacement, and Questrade API data requests. -/
inductive Event where
  | readToken (t : String)
  | exchange (consumed : String) (received : String)
  | updateToken (old new_ : String)
  | apiRequest (url : String)
deriving DecidableEq, Repr

/-- `QuestradeAPI::new` (src/questrade_api.rs lines 52-64): read the stored
refresh token, exchange it via `get_oauth2_token`, persist the token returned
by the exchange via `update_refresh_token`, and hold the session token.
Returns the session token, the newly persisted store value, and the event
trace; `none` models the propagated failures (missing stored token, failed
exchange). -/
def QuestradeAPI.new (stored : Option String)
    (exchange : String → Option OAuth2Token) :
    Option (OAuth2Token × String × List Event) :=
  match stored with
  | none => none
  | some t =>
    match exchange t with
    | none => none
    | some tok =>
      some (tok, tok.refresh_token,
        [Event.readToken t, Event.exchange t tok.refresh_token,
         Event.updateToken t tok.refresh_token])

/-- A whole run: `QuestradeAPI::new` followed by the data requests the rest
of the program issues through the constructed client (`get_accounts`,
`get_balances`, `get_positions`, `get_symbol` all go through
`make_request`). Yields the persisted store value and the full trace. -/
def runTrace (stored : Option String) (exchange : String → Option OAuth2Token)
    (requests : List String) : Option (String × List Event) :=
  match QuestradeAPI.new stored exchange with
  | none => none
  | some (_, persisted, events) =>
    some (persisted, events ++ requests.map Event.apiRequest)

/-- Specification predicate: the first store-update or API-request event of
the trace, if any request occurs at all, is a store update — i.e. the store
update happens before any API request. -/
def updateBeforeRequests : List Event → Bool
  | [] => true
  | Event.apiRequest _ :: _ => false
  | Event.updateToken _ _ :: _ => true
  | _ :: rest => updateBeforeRequests rest

/-! ### Symbol map construction (src/questrade_api.rs lines 121-134) -/

/-- `map.entry(k).or_insert(v)`: insert only when the key is absent. -/
def entryOrInsert (l : List (ℕ × Symbol)) (k : ℕ) (v : Symbol) : List (ℕ × Symbol) :=
  match alookup l k with
  | some _ => l
  | none => l ++ [(k, v)]

/-- The `for position in positions.iter()` loop of
`QuestradeAPI::get_positions_and_symbol_map`: every iteration calls
`self.get_symbol(position.symbol_id)` (recorded in the lookup trace), then
inserts the result with `or_insert`. Failure of a lookup propagates. -/
def symbolMapLoop (getSymbol : ℕ → Option Symbol) :
    List Position → List (ℕ × Symbol) → List ℕ →
    Option (List (ℕ × Symbol)) × List ℕ
  | [], acc, trace => (some acc, trace)
  | p :: rest, acc, trace =>
    match getSymbol p.symbol_id with
    | none => (none, trace ++ [p.symbol_id])
    | some s =>
      symbolMapLoop getSymbol rest (entryOrInsert acc s.symbol_id s)
        (trace ++ [p.symbol_id])

/-- `QuestradeAPI::get_positions_and_symbol_map` for one account, given the
positions the account returned: the symbol map built by the loop, plus the
trace of symbol ids that were looked up over the network. -/
def get_positions_and_symbol_map (getSymbol : ℕ → Option Symbol)
    (positions : List Position) : Option (List (ℕ × Symbol)) × List ℕ :=
  symbolMapLoop getSymbol positions [] []

/-! ### Helper lemmas about the bucket operations -/

/-- What one `entry(..).and_modify(..).or_insert(..)` call does to the bucket
value stored at the touched key. -/
def bump : Option (ℚ × ℚ) → ℚ → ℚ → ℚ × ℚ
  | none, c, v => (c, v)
  | some (c0, v0), c, v => (c0 + c, v0 + v)

theorem sumVals_entryAdd {α : Type} [DecidableEq α]
    (l : List (α × ℚ × ℚ)) (k : α) (c v : ℚ) :
    sumVals (entryAdd l k c v) = sumVals l + v := by
  induction l with
  | nil => simp [entryAdd, sumVals]
  | cons hd tl ih =>
    obtain ⟨k2, c2, v2⟩ := hd
    by_cases h : k2 = k
    · simp [entryAdd, h, sumVals]
      ring
    · simp [entryAdd, h, sumVals] at ih ⊢
      rw [ih]
      ring

theorem sumCosts_entryAdd {α : Type} [DecidableEq α]
    (l : List (α × ℚ × ℚ)) (k : α) (c v : ℚ) :
    sumCosts (entryAdd l k c v) = sumCosts l + c := by
  induction l with
  | nil => simp [entryAdd, sumCosts]
  | cons hd tl ih =>
    obtain ⟨k2, c2, v2⟩ := hd
    by_cases h : k2 = k
    · simp [entryAdd, h, sumCosts]
      ring
    · simp [entryAdd, h, sumCosts] at ih ⊢
      rw [ih]
      ring

theorem alookup_entryAdd {α : Type} [DecidableEq α]
    (l : List (α × ℚ × ℚ)) (k : α) (c v : ℚ) (k2 : α) :
    alookup (entryAdd l k c v) k2 =
      if k2 = k then some (bump (alookup l k) c v) else alookup l k2 := by
  induction l with
  | nil =>
    by_cases h : k2 = k
    · simp [entryAdd, alookup, h, bump]
    · simp only [entryAdd, alookup, bump, if_neg h]
      rw [if_neg (fun hk => h hk.symm)]
  | cons hd tl ih =>
    obtain ⟨kh, ch, vh⟩ := hd
    by_cases hh : kh = k
    · subst hh
      by_cases h2 : k2 = kh
      · subst h2
        simp [entryAdd, alookup, bump]
      · have h2s : ¬ kh = k2 := fun h => h2 h.symm
        simp [entryAdd, alookup, h2, h2s]
    · by_cases h2 : k2 = k
      · subst h2
        have hks : ¬ kh = k2 := hh
        simp [entryAdd, alookup, hh, hks, ih]
      · by_cases h3 : kh = k2
        · subst h3
          simp [entryAdd, alookup, hh, h2]
        · simp [entryAdd, alookup, hh, h2, h3, ih]

theorem add_position_sums (a : Assets) (p : Position) :
    sumVals (a.add_position p).asset_map = sumVals a.asset_map + p.current_market_value ∧
    sumVals (a.add_position p).class_map = sumVals a.class_map + p.current_market_value ∧
    (a.add_position p).total_market_values
      = a.total_market_values + p.current_market_value := by
  refine ⟨?_, ?_, rfl⟩
  · simp [Assets.add_position, sumVals_entryAdd]
  · simp [Assets.add_position, sumVals_entryAdd]

theorem add_positions_inv (positions : List Position) (a : Assets)
    (h1 : sumVals a.asset_map = a.total_market_values)
    (h2 : sumVals a.class_map = a.total_market_values) :
    sumVals (a.add_positions positions).asset_map
        = (a.add_positions positions).total_market_values ∧
    sumVals (a.add_positions positions).class_map
        = (a.add_positions positions).total_market_values := by
  induction positions generalizing a with
  | nil => exact ⟨h1, h2⟩
  | cons p rest ih =>
    have hs := add_position_sums a p
    exact ih (a.add_position p) (by rw [hs.1, hs.2.2, h1]) (by rw [hs.2.1, hs.2.2, h2])

/-- C2: after feeding any sequence of positions to `Assets::add_positions`
starting from `Assets::new`, the market values summed over the symbol buckets
and summed over the class buckets both equal `total_market_values` (exactly,
in the idealised arithmetic, hence within any tolerance); and a single
`add_position` step adds the position's book cost and market value to exactly
the one symbol bucket for its symbol and the one class bucket for its class,
leaving every other bucket unchanged. -/
theorem add_positions_sum_invariant (positions : List Position) :
    (sumVals (Assets.new.add_positions positions).asset_map
        = (Assets.new.add_positions positions).total_market_values) ∧
    (sumVals (Assets.new.add_positions positions).class_map
        = (Assets.new.add_positions positions).total_market_values) ∧
    (∀ (a : Assets) (p : Position) (s : String),
      alookup (a.add_position p).asset_map s =
        if s = p.symbol then
          some (bump (alookup a.asset_map p.symbol) p.total_cost p.current_market_value)
        else alookup a.asset_map s) ∧
    (∀ (a : Assets) (p : Position) (c : AssetClass),
      alookup (a.add_position p).class_map c =
        if c = a.classify p.symbol then
          some (bump (alookup a.class_map (a.classify p.symbol))
            p.total_cost p.current_market_value)
        else alookup a.class_map c) := by
  have base := add_positions_inv positions Assets.new (by simp [Assets.new, sumVals])
    (by simp [Assets.new, sumVals])
  refine ⟨base.1, base.2, ?_, ?_⟩
  · intro a p s
    simp [Assets.add_position, alookup_entryAdd]
  · intro a p c
    simp [Assets.add_position, alookup_entryAdd]

/-! ### C1: token rotation -/

/-- C1: when `QuestradeAPI::new` succeeds after reading stored token `t` and
receiving an exchange response carrying refresh token `tok.refresh_token`,
the persisted store value is exactly `tok.refresh_token` (and differs from
the consumed `t` whenever the exchange returned a fresh value), the
update event for that rotation is in the run trace, and the store update
precedes every API data request of the run. -/
theorem questrade_new_rotates_token (t : String) (tok : OAuth2Token)
    (exchange : String → Option OAuth2Token) (requests : List String)
    (persisted : String) (trace : List Event)
    (hex : exchange t = some tok)
    (hrun : runTrace (some t) exchange requests = some (persisted, trace)) :
    persisted = tok.refresh_token ∧
    (tok.refresh_token ≠ t → persisted ≠ t) ∧
    Event.updateToken t tok.refresh_token ∈ trace ∧
    updateBeforeRequests trace = true := by
  simp only [runTrace, QuestradeAPI.new, hex] at hrun
  have h := Option.some.inj hrun
  have hp : tok.refresh_token = persisted := congrArg Prod.fst h
  have ht := congrArg Prod.snd h
  simp only at hp ht
  subst hp
  subst ht
  refine ⟨rfl, fun h => h, by simp, ?_⟩
  simp [updateBeforeRequests]

/-- A concrete exchange oracle: consumes `tokA`, returns a session token
whose next refresh token is `tokB`. -/
def exchangeAB : String → Option OAuth2Token :=
  fun s =>
    if s = "tokA" then
      some { access_token := "acc", token_type := "Bearer", expires_in := 1800,
             refresh_token := "tokB", api_server := "https://api.example/" }
    else none

/-- The trace of the concrete run used as the C1 witness. -/
def traceAB : List Event :=
  [Event.readToken "tokA", Event.exchange "tokA" "tokB",
   Event.updateToken "tokA" "tokB", Event.apiRequest "v1/accounts"]

/-- Witness for C1 at the spec's own scenario: store holds `tokA`, exchange
returns `tokB`, one data request follows; the persisted value is `tokB`,
never `tokA`, and the update precedes the request. -/
theorem questrade_new_rotates_token_witness :
    exchangeAB "tokA" = some ⟨"acc", "Bearer", 1800, "tokB", "https://api.example/"⟩ ∧
    runTrace (some "tokA") exchangeAB ["v1/accounts"] = some ("tokB", traceAB) ∧
    ("tokB" = "tokB" ∧ ("tokB" ≠ "tokA" → "tokB" ≠ "tokA") ∧
      Event.updateToken "tokA" "tokB" ∈ traceAB ∧
      updateBeforeRequests traceAB = true) :=
  ⟨rfl, rfl,
    questrade_new_rotates_token "tokA" _ exchangeAB ["v1/accounts"] "tokB" traceAB
      rfl rfl⟩

/-! ### C3: the store update is not a compare-and-swap -/

/-- C3 counterexample: the table holds the row `(id 1, "tokC")`, so the
stored value differs from the expected old value `"tokA"`; yet
`update_refresh_token` succeeds (no Conflict — the UPDATE statement matches
on id only) and silently overwrites the record with `"tokB"`. -/
theorem update_refresh_token_conflict_cex :
    update_refresh_token [⟨1, "tokC"⟩] ⟨1, "tokA"⟩ "tokB"
      = ([⟨1, "tokB"⟩], Except.ok ()) ∧
    ("tokC" : String) ≠ "tokA" := by
  constructor
  · rfl
  · decide

/-- C3 amended: `update_refresh_token` always succeeds; it rewrites the
refresh token of every row whose id matches the passed record — regardless of
the currently stored value — and leaves every other row untouched. It never
fails with a Conflict. -/
theorem update_refresh_token_unconditional (table : List RefreshToken)
    (rt : RefreshToken) (new_value : String) :
    (update_refresh_token table rt new_value).2 = Except.ok () ∧
    (update_refresh_token table rt new_value).1.length = table.length ∧
    (∀ i : ℕ, ((update_refresh_token table rt new_value).1.get? i) =
      (table.get? i).map fun row =>
        if row.id = rt.id then { row with refresh_token := new_value } else row) := by
  refine ⟨rfl, by simp [update_refresh_token], ?_⟩
  intro i
  simp [update_refresh_token]

/-! ### C4: a zero total does not fail, it renders IEEE quotients -/

/-- A position with zero book cost and zero market value, giving a reachable
aggregate whose `total_market_values` is zero while a symbol bucket exists. -/
def zeroPosition : Position :=
  { symbol := "X", symbol_id := 1, open_quantity := 0, closed_quantity := 0,
    current_market_value := 0, current_price := 0, average_entry_price := 0,
    closed_pnl := 0, open_pnl := 0, total_cost := 0 }

/-- C4 counterexample: with the reachable zero-total aggregate, the summary
body is still produced — the total is 0 and the bucket row carries the IEEE
percentage NaN (`0.0 / 0.0 * 100.0`); there is no DivisionUndefined failure
and no explicit no-data rendering in the code. -/
theorem display_zero_total_cex :
    (Assets.new.add_positions [zeroPosition]).total_market_values = 0 ∧
    display_asset_comp (Assets.new.add_positions [zeroPosition]).asset_map
        (Assets.new.add_positions [zeroPosition]).total_market_values
      = [("X", 0, 0, F.nan)] := by
  constructor
  · norm_num [Assets.add_positions, Assets.add_position, Assets.new, List.foldl,
      zeroPosition]
  · norm_num [Assets.add_positions, Assets.add_position, Assets.new, List.foldl,
      zeroPosition, Assets.classify, alookup, entryAdd, display_asset_comp,
      get_asset_comp, sortByValDesc, List.mergeSort, F.mul, F.div]

/-- C4 amended: when `total_market_values` is zero the display path is total —
each bucket percentage is the IEEE quotient times 100: NaN for a zero-value
bucket, +infinity for a positive one, -infinity for a negative one. No
failure value and no distinct no-data case exist. -/
theorem display_zero_total_ieee (iter : List (String × ℚ × ℚ)) :
    (display_asset_comp iter 0).map (fun r => r.2.2.2)
      = (get_asset_comp iter).map (fun r =>
          if r.2.2 = 0 then F.nan else if 0 < r.2.2 then F.inf else F.ninf) := by
  simp only [display_asset_comp, List.map_map]
  apply List.map_congr_left
  intro x _
  obtain ⟨s, c, v⟩ := x
  simp only [Function.comp]
  rcases lt_trichotomy v 0 with h | h | h
  · rw [if_neg (by exact ne_of_lt h), if_neg (by exact not_lt_of_lt h)]
    simp [F.div, F.mul, ne_of_lt h, not_lt_of_lt h, not_lt.mpr (le_of_lt h)]
  · subst h
    simp [F.div, F.mul]
  · rw [if_neg (by exact ne_of_gt h), if_pos h]
    simp [F.div, F.mul, ne_of_gt h, h, not_lt_of_lt h]

/-! ### C5: deviation bands are computed from the rounded percentage -/

/-- C5 counterexample: at actual percentage 47.504 against the Stocks target
of 50, the raw delta is 2.496, inside the warning margin, so the claim
demands OnTarget; but `colour_percent` first rounds the percentage to 47.50,
making the delta exactly 2.5, and yields yellow (Warning). -/
theorem deviation_band_raw_delta_cex :
    qabs (targetOf AssetClass.Stocks - 5938/125) < MARGIN_OF_WARNING ∧
    deviationBand (5938/125) AssetClass.Stocks = Band.Warning ∧
    Band.Warning ≠ Band.OnTarget := by
  refine ⟨by norm_num [qabs, targetOf, MARGIN_OF_WARNING], ?_, by decide⟩
  have h : colour_percent (5938/125) AssetClass.Stocks = Colour.yellow := by
    norm_num [colour_percent, QAT.roundTwo, roundHalfAway, qabs, targetOf,
      MARGIN_OF_WARNING, MARGIN_OF_ERROR]
  unfold deviationBand
  rw [h]

/-- C5 amended: with delta taken from the percentage as rounded to two
decimals (half away from zero) — the value the code banding actually uses —
the classification is OnTarget when the absolute delta is below the warning
margin 2.5, Error when it is at least the error margin 5.0, and Warning in
between; in particular, against target 50, 48.0 is OnTarget, 47.0 is Warning
and 44.0 is Error. -/
theorem deviation_band_rounded (p : ℚ) (c : AssetClass) :
    ((qabs (targetOf c - QAT.roundTwo p) < MARGIN_OF_WARNING →
        deviationBand p c = Band.OnTarget) ∧
     (MARGIN_OF_ERROR ≤ qabs (targetOf c - QAT.roundTwo p) →
        deviationBand p c = Band.Error) ∧
     (MARGIN_OF_WARNING ≤ qabs (targetOf c - QAT.roundTwo p) →
        qabs (targetOf c - QAT.roundTwo p) < MARGIN_OF_ERROR →
        deviationBand p c = Band.Warning)) ∧
    deviationBand 48 AssetClass.Stocks = Band.OnTarget ∧
    deviationBand 47 AssetClass.Stocks = Band.Warning ∧
    deviationBand 44 AssetClass.Stocks = Band.Error := by
  refine ⟨⟨?_, ?_, ?_⟩, ?_, ?_, ?_⟩
  · intro h
    unfold deviationBand colour_percent
    rw [if_pos h]
  · intro h
    unfold deviationBand colour_percent
    rw [if_neg (by exact not_lt.mpr (le_trans (by norm_num [MARGIN_OF_WARNING, MARGIN_OF_ERROR]) h)),
      if_pos h]
  · intro h1 h2
    unfold deviationBand colour_percent
    rw [if_neg (not_lt.mpr h1), if_neg (not_le.mpr h2)]
  · have h : colour_percent 48 AssetClass.Stocks = Colour.green := by
      norm_num [colour_percent, QAT.roundTwo, roundHalfAway, qabs, targetOf,
        MARGIN_OF_WARNING, MARGIN_OF_ERROR]
    unfold deviationBand
    rw [h]
  · have h : colour_percent 47 AssetClass.Stocks = Colour.yellow := by
      norm_num [colour_percent, QAT.roundTwo, roundHalfAway, qabs, targetOf,
        MARGIN_OF_WARNING, MARGIN_OF_ERROR]
    unfold deviationBand
    rw [h]
  · have h : colour_percent 44 AssetClass.Stocks = Colour.red := by
      norm_num [colour_percent, QAT.roundTwo, roundHalfAway, qabs, targetOf,
        MARGIN_OF_WARNING, MARGIN_OF_ERROR]
    unfold deviationBand
    rw [h]

/-- Witness for C5 amended, at actual 48 against the Stocks target: the
rounded delta 2.0 is inside the warning margin and the band is OnTarget. -/
theorem deviation_band_rounded_witness :
    qabs (targetOf AssetClass.Stocks - QAT.roundTwo 48) < MARGIN_OF_WARNING ∧
    deviationBand 48 AssetClass.Stocks = Band.OnTarget := by
  have h : qabs (targetOf AssetClass.Stocks - QAT.roundTwo 48) < MARGIN_OF_WARNING := by
    norm_num [qabs, targetOf, QAT.roundTwo, roundHalfAway, MARGIN_OF_WARNING]
  exact ⟨h, ((deviation_band_rounded 48 AssetClass.Stocks).1).1 h⟩

/-! ### C6: summary ordering -/

/-- First of two positions with equal market values (symbol "A", added
first). -/
def tiePosA : Position :=
  { symbol := "A", symbol_id := 1, open_quantity := 0, closed_quantity := 0,
    current_market_value := 10, current_price := 0, average_entry_price := 0,
    closed_pnl := 0, open_pnl := 0, total_cost := 1 }

/-- Second of two positions with equal market values (symbol "B", added
second). -/
def tiePosB : Position :=
  { symbol := "B", symbol_id := 2, open_quantity := 0, closed_quantity := 0,
    current_market_value := 10, current_price := 0, average_entry_price := 0,
    closed_pnl := 0, open_pnl := 0, total_cost := 1 }

/-- C6 counterexample: the buckets were first inserted in the order A, B with
equal market values; `[B, A]` is an admissible iteration sequence of that
`HashMap` content (Rust `HashMap` iteration order is unspecified and need not
follow insertion), and on it the stable sort returns B before A — the tie is
broken by the iteration order, not by first-insertion order. -/
theorem get_asset_comp_tie_order_cex :
    (Assets.new.add_positions [tiePosA, tiePosB]).asset_map
      = [("A", 1, 10), ("B", 1, 10)] ∧
    [("B", (1:ℚ), (10:ℚ)), ("A", 1, 10)].Perm
      (Assets.new.add_positions [tiePosA, tiePosB]).asset_map ∧
    get_asset_comp [("B", (1:ℚ), (10:ℚ)), ("A", 1, 10)]
      = [("B", 1, 10), ("A", 1, 10)] := by
  have hmap : (Assets.new.add_positions [tiePosA, tiePosB]).asset_map
      = [("A", 1, 10), ("B", 1, 10)] := by
    norm_num +decide [Assets.add_positions, Assets.add_position, Assets.new,
      List.foldl, tiePosA, tiePosB, Assets.classify, alookup, entryAdd]
  refine ⟨hmap, ?_, ?_⟩
  · rw [hmap]
    exact List.Perm.swap ("A", (1:ℚ), (10:ℚ)) ("B", (1:ℚ), (10:ℚ)) []
  · apply List.mergeSort_of_sorted
    simp only [List.pairwise_cons, List.Pairwise.nil, List.mem_singleton]
    refine ⟨?_, by simp⟩
    intro x hx
    subst hx
    exact decide_eq_true (by norm_num)

/-- C6 amended: for every admissible iteration sequence of the symbol buckets
and of the class buckets, the summary lists are sorted by weakly descending
market value and contain exactly the iterated buckets, and the sort is stable
with respect to the iteration sequence: any pair of buckets that the
iteration sequence already lists in weakly descending value order — in
particular any pair with tied market values — keeps its relative order in the
output. The sequence whose order ties follow is the `HashMap` iteration
order, which is unspecified, not insertion order. -/
theorem get_comp_sorted_stable (iter : List (String × ℚ × ℚ))
    (iter2 : List (AssetClass × ℚ × ℚ)) :
    ((get_asset_comp iter).Pairwise (fun a b => b.2.2 ≤ a.2.2) ∧
     (get_asset_comp iter).Perm iter ∧
     (∀ x y : String × ℚ × ℚ, y.2.2 ≤ x.2.2 → [x, y].Sublist iter →
        [x, y].Sublist (get_asset_comp iter)) ∧
     (∀ x y : String × ℚ × ℚ, x.2.2 = y.2.2 → [x, y].Sublist iter →
        [x, y].Sublist (get_asset_comp iter))) ∧
    ((get_simplified_comp iter2).Pairwise (fun a b => b.2.2 ≤ a.2.2) ∧
     (get_simplified_comp iter2).Perm iter2 ∧
     (∀ x y : AssetClass × ℚ × ℚ, y.2.2 ≤ x.2.2 → [x, y].Sublist iter2 →
        [x, y].Sublist (get_simplified_comp iter2)) ∧
     (∀ x y : AssetClass × ℚ × ℚ, x.2.2 = y.2.2 → [x, y].Sublist iter2 →
        [x, y].Sublist (get_simplified_comp iter2))) := by
  have htrans : ∀ {α : Type} (a b c : α × ℚ × ℚ),
      decide (b.2.2 ≤ a.2.2) → decide (c.2.2 ≤ b.2.2) → decide (c.2.2 ≤ a.2.2) := by
    intro α a b c hab hbc
    simp only [decide_eq_true_eq] at hab hbc ⊢
    exact le_trans hbc hab
  have htotal : ∀ {α : Type} (a b : α × ℚ × ℚ),
      (decide (b.2.2 ≤ a.2.2) || decide (a.2.2 ≤ b.2.2)) = true := by
    intro α a b
    simp only [Bool.or_eq_true, decide_eq_true_eq]
    exact le_total b.2.2 a.2.2
  have hstab : ∀ {α : Type} (l : List (α × ℚ × ℚ)) (x y : α × ℚ × ℚ),
      y.2.2 ≤ x.2.2 → [x, y].Sublist l →
      [x, y].Sublist (l.mergeSort (fun a b => b.2.2 ≤ a.2.2)) := by
    intro α l x y h hsub
    exact List.pair_sublist_mergeSort (fun a b c => htrans a b c)
      (fun a b => htotal a b) (decide_eq_true h) hsub
  refine ⟨⟨?_, List.mergeSort_perm iter _, ?_, ?_⟩,
    ⟨?_, List.mergeSort_perm iter2 _, ?_, ?_⟩⟩
  · exact (List.sorted_mergeSort (fun a b c => htrans a b c) (fun a b => htotal a b)
      iter).imp (fun h => by simpa using h)
  · intro x y h hsub
    exact hstab iter x y h hsub
  · intro x y h hsub
    exact hstab iter x y (le_of_eq h.symm) hsub
  · exact (List.sorted_mergeSort (fun a b c => htrans a b c) (fun a b => htotal a b)
      iter2).imp (fun h => by simpa using h)
  · intro x y h hsub
    exact hstab iter2 x y h hsub
  · intro x y h hsub
    exact hstab iter2 x y (le_of_eq h.symm) hsub

/-- Witness for C6 amended, on a concrete iteration sequence: the buckets
`("Y", 2, 5)` and `("X", 1, 5)` have tied market values and appear in that
order in the iteration sequence, and they keep that relative order in the
sorted output. -/
theorem get_comp_sorted_stable_witness :
    ((("Y", (2:ℚ), (5:ℚ)) : String × ℚ × ℚ).2.2
        = (("X", (1:ℚ), (5:ℚ)) : String × ℚ × ℚ).2.2) ∧
    [("Y", (2:ℚ), (5:ℚ)), ("X", 1, 5)].Sublist
      [("Y", (2:ℚ), (5:ℚ)), ("X", 1, 5)] ∧
    [("Y", (2:ℚ), (5:ℚ)), ("X", 1, 5)].Sublist
      (get_asset_comp [("Y", (2:ℚ), (5:ℚ)), ("X", 1, 5)]) := by
  refine ⟨rfl, List.Sublist.refl _, ?_⟩
  exact (get_comp_sorted_stable [("Y", (2:ℚ), (5:ℚ)), ("X", 1, 5)] []).1.2.2.2
    ("Y", (2:ℚ), (5:ℚ)) ("X", (1:ℚ), (5:ℚ)) rfl (List.Sublist.refl _)

/-! ### C7: effective quantity and P&L -/

/-- A position with nothing closed: 10 open units. -/
def openOnlyPos : Position :=
  { symbol := "OPN", symbol_id := 3, open_quantity := 10, closed_quantity := 0,
    current_market_value := 0, current_price := 0, average_entry_price := 0,
    closed_pnl := 0, open_pnl := 4, total_cost := 0 }

/-- A position with 5 closed units alongside 10 open units. -/
def closedPos : Position :=
  { symbol := "CLS", symbol_id := 4, open_quantity := 10, closed_quantity := 5,
    current_market_value := 0, current_price := 0, average_entry_price := 0,
    closed_pnl := 7, open_pnl := 4, total_cost := 0 }

/-- C7: in the rows printed by `display_positions_with_dividends`, the
reported quantity is `closed_quantity` whenever that is nonzero and
`open_quantity` otherwise, and the reported P&L is `closed_pnl` whenever that
is nonzero and `open_pnl` otherwise; in particular a position with closed
quantity 0 and open quantity 10 reports 10, and one with closed quantity 5
and open quantity 10 reports 5. -/
theorem display_positions_effective_override :
    (∀ (positions : List Position) (symbols : List (ℕ × Symbol)),
      (display_positions_with_dividends positions symbols).1
        = positions.map (positionRow symbols)) ∧
    (∀ (symbols : List (ℕ × Symbol)) (p : Position),
      (p.closed_quantity ≠ 0 → (positionRow symbols p).quantity = p.closed_quantity) ∧
      (p.closed_quantity = 0 → (positionRow symbols p).quantity = p.open_quantity) ∧
      (p.closed_pnl ≠ 0 → (positionRow symbols p).pnl = p.closed_pnl) ∧
      (p.closed_pnl = 0 → (positionRow symbols p).pnl = p.open_pnl)) ∧
    (positionRow [] openOnlyPos).quantity = 10 ∧
    (positionRow [] closedPos).quantity = 5 := by
  refine ⟨fun _ _ => rfl, fun symbols p => ⟨?_, ?_, ?_, ?_⟩, ?_, ?_⟩
  · intro h
    simp [positionRow, h]
  · intro h
    simp [positionRow, h]
  · intro h
    simp [positionRow, h]
  · intro h
    simp [positionRow, h]
  · norm_num [positionRow, openOnlyPos, alookup]
  · norm_num [positionRow, closedPos, alookup]

/-- Witness for C7 at the two example positions: the closed quantity of the
first is zero and it reports its open quantity; the closed quantity of the
second is nonzero and it reports that closed quantity. -/
theorem display_positions_effective_override_witness :
    (openOnlyPos.closed_quantity = 0 ∧
      (positionRow [] openOnlyPos).quantity = openOnlyPos.open_quantity) ∧
    (closedPos.closed_quantity ≠ 0 ∧
      (positionRow [] closedPos).quantity = closedPos.closed_quantity) := by
  refine ⟨⟨by norm_num [openOnlyPos], ?_⟩, ⟨by norm_num [closedPos], ?_⟩⟩
  · exact (display_positions_effective_override.2.1 [] openOnlyPos).2.1
      (by norm_num [openOnlyPos])
  · exact (display_positions_effective_override.2.1 [] closedPos).1
      (by norm_num [closedPos])

/-! ### C8: symbol lookups and the symbol map -/

theorem alookup_append_left {α β : Type} [DecidableEq α]
    (l l2 : List (α × β)) (k : α) (s : β) (h : alookup l k = some s) :
    alookup (l ++ l2) k = some s := by
  induction l with
  | nil => simp [alookup] at h
  | cons hd tl ih =>
    obtain ⟨kh, vh⟩ := hd
    by_cases hk : kh = k
    · simp [alookup, hk] at h ⊢
      exact h
    · simp [alookup, hk] at h ⊢
      exact ih h

theorem alookup_entryOrInsert_preserve (l : List (ℕ × Symbol)) (k2 : ℕ) (v : Symbol)
    (k : ℕ) (s : Symbol) (h : alookup l k = some s) :
    alookup (entryOrInsert l k2 v) k = some s := by
  unfold entryOrInsert
  cases halt : alookup l k2 with
  | some _ => exact h
  | none => exact alookup_append_left l [(k2, v)] k s h

theorem symbolMapLoop_trace (g : ℕ → Option Symbol) (h : ∀ i, (g i).isSome)
    (ps : List Position) (acc : List (ℕ × Symbol)) (tr : List ℕ) :
    (symbolMapLoop g ps acc tr).2 = tr ++ ps.map Position.symbol_id := by
  induction ps generalizing acc tr with
  | nil => simp [symbolMapLoop]
  | cons p rest ih =>
    obtain ⟨s, hs⟩ := Option.isSome_iff_exists.mp (h p.symbol_id)
    simp only [symbolMapLoop, hs]
    rw [ih]
    simp

theorem symbolMapLoop_preserve (g : ℕ → Option Symbol) (ps : List Position)
    (acc : List (ℕ × Symbol)) (tr : List ℕ) (k : ℕ) (s : Symbol)
    (m : List (ℕ × Symbol)) (hacc : alookup acc k = some s)
    (hres : (symbolMapLoop g ps acc tr).1 = some m) :
    alookup m k = some s := by
  induction ps generalizing acc tr with
  | nil =>
    simp only [symbolMapLoop] at hres
    exact (Option.some.inj hres) ▸ hacc
  | cons p rest ih =>
    cases hg : g p.symbol_id with
    | none => simp [symbolMapLoop, hg] at hres
    | some s2 =>
      simp only [symbolMapLoop, hg] at hres
      exact ih (entryOrInsert acc s2.symbol_id s2) (tr ++ [p.symbol_id])
        (alookup_entryOrInsert_preserve acc s2.symbol_id s2 k s hacc) hres

/-- A position with symbol id 7, used twice in one account's position list. -/
def dupPos : Position :=
  { symbol := "DUP", symbol_id := 7, open_quantity := 1, closed_quantity := 0,
    current_market_value := 0, current_price := 0, average_entry_price := 0,
    closed_pnl := 0, open_pnl := 0, total_cost := 0 }

/-- A total symbol oracle for the C8 runs. -/
def dupOracle : ℕ → Option Symbol :=
  fun i => some { symbol := "DUP", symbol_id := i, dividend := 1, yield_ := 2 }

/-- C8 counterexample: a single `get_positions_and_symbol_map` call over two
positions sharing symbol id 7 performs the network lookup for id 7 twice —
`get_symbol` runs once per position, before the `or_insert` deduplication —
so a distinct symbolID is not looked up at most once. -/
theorem symbol_lookup_once_cex :
    (get_positions_and_symbol_map dupOracle [dupPos, dupPos]).2 = [7, 7] ∧
    List.count 7 (get_positions_and_symbol_map dupOracle [dupPos, dupPos]).2 = 2 := by
  constructor
  · rfl
  · rfl

/-- C8 amended: `get_positions_and_symbol_map` issues exactly one symbol
lookup per position (so a symbol id repeated across positions is fetched
again rather than at most once), while the map itself is written through
`or_insert`: any mapping present at any point of the loop is still present,
unchanged, in the final map. -/
theorem symbol_map_per_position (g : ℕ → Option Symbol) (ps : List Position)
    (h : ∀ i, (g i).isSome) :
    (get_positions_and_symbol_map g ps).2 = ps.map Position.symbol_id ∧
    (∀ (acc : List (ℕ × Symbol)) (tr : List ℕ) (k : ℕ) (s : Symbol)
       (m : List (ℕ × Symbol)),
      alookup acc k = some s → (symbolMapLoop g ps acc tr).1 = some m →
      alookup m k = some s) := by
  refine ⟨?_, fun acc tr k s m hacc hres =>
    symbolMapLoop_preserve g ps acc tr k s m hacc hres⟩
  unfold get_positions_and_symbol_map
  rw [symbolMapLoop_trace g h ps [] []]
  simp

/-- A symbol record used as pre-existing map content in the C8 witness. -/
def preSym : Symbol :=
  { symbol := "PRE", symbol_id := 9, dividend := 3, yield_ := 4 }

/-- Witness for C8 amended, on a concrete run: the oracle is total, the
lookup trace of `[dupPos]` is `[7]`, and a mapping `9 ↦ preSym` present
before the loop is still present, unchanged, in the final map. -/
theorem symbol_map_per_position_witness :
    (get_positions_and_symbol_map dupOracle [dupPos]).2 = [dupPos.symbol_id] ∧
    alookup [(9, preSym)] 9 = some preSym ∧
    (symbolMapLoop dupOracle [dupPos] [(9, preSym)] []).1
      = some [(9, preSym), (7, ⟨"DUP", 7, 1, 2⟩)] ∧
    alookup [(9, preSym), (7, (⟨"DUP", 7, 1, 2⟩ : Symbol))] 9 = some preSym := by
  have h := symbol_map_per_position dupOracle [dupPos] (fun i => rfl)
  refine ⟨h.1, rfl, rfl, ?_⟩
  exact h.2 [(9, preSym)] [] 9 preSym _ rfl rfl

/-! ### C9: the three-position scenario -/

/-- Scenario position 1: AAPL, cost 1000, value 1200. -/
def scnP1 : Position :=
  { symbol := "AAPL", symbol_id := 11, open_quantity := 0, closed_quantity := 0,
    current_market_value := 1200, current_price := 0, average_entry_price := 0,
    closed_pnl := 0, open_pnl := 0, total_cost := 1000 }

/-- Scenario position 2: BND, cost 500, value 520. -/
def scnP2 : Position :=
  { symbol := "BND", symbol_id := 12, open_quantity := 0, closed_quantity := 0,
    current_market_value := 520, current_price := 0, average_entry_price := 0,
    closed_pnl := 0, open_pnl := 0, total_cost := 500 }

/-- Scenario position 3: AAPL again, cost 200, value 210. -/
def scnP3 : Position :=
  { symbol := "AAPL", symbol_id := 11, open_quantity := 0, closed_quantity := 0,
    current_market_value := 210, current_price := 0, average_entry_price := 0,
    closed_pnl := 0, open_pnl := 0, total_cost := 200 }

/-- The scenario's aggregate start state: `Assets::new` with its
classification map replaced by the scenario's policy, AAPL to Stocks and BND
to Bonds. -/
def scnStart : Assets :=
  { Assets.new with
    asset_to_class_map := [("AAPL", AssetClass.Stocks), ("BND", AssetClass.Bonds)] }

/-- The scenario's aggregate after feeding the three positions. -/
def scnResult : Assets :=
  scnStart.add_positions [scnP1, scnP2, scnP3]

/-- C9 counterexample: the Stocks percentage of the scenario is
1410 / 1930 * 100 = 14100/193, about 73.06 percent, not 72.9, and the Bonds
percentage is 5200/193, about 26.94 percent, not 27.1. -/
theorem scenario_percent_cex :
    display_simplified_comp scnResult.class_map scnResult.total_market_values
      = [(AssetClass.Stocks, 1200, 1410, F.fin (14100/193)),
         (AssetClass.Bonds, 500, 520, F.fin (5200/193))] ∧
    ((14100 : ℚ)/193 ≠ 729/10) ∧
    ((5200 : ℚ)/193 ≠ 271/10) := by
  have hmap : scnResult.class_map
      = [(AssetClass.Stocks, 1200, 1410), (AssetClass.Bonds, 500, 520)] := by
    norm_num +decide [scnResult, scnStart, scnP1, scnP2, scnP3, Assets.add_positions,
      Assets.add_position, Assets.new, Assets.classify, alookup, entryAdd, List.foldl]
  have htot : scnResult.total_market_values = 1930 := by
    norm_num [scnResult, scnStart, scnP1, scnP2, scnP3, Assets.add_positions,
      Assets.add_position, Assets.new, List.foldl]
  rw [hmap, htot]
  refine ⟨?_, by norm_num, by norm_num⟩
  norm_num [display_simplified_comp, get_simplified_comp, sortByValDesc,
    List.mergeSort, F.mul, F.div]

/-- C9 amended: the scenario yields symbol buckets AAPL (cost 1200, value
1410) and BND (cost 500, value 520), class buckets Stocks (value 1410) and
Bonds (value 520), total market value 1930, and percentages 14100/193
(73.06 at the two-decimal rendering) for Stocks and 5200/193 (26.94) for
Bonds. -/
theorem scenario_aggregate :
    scnResult.asset_map = [("AAPL", 1200, 1410), ("BND", 500, 520)] ∧
    scnResult.class_map
      = [(AssetClass.Stocks, 1200, 1410), (AssetClass.Bonds, 500, 520)] ∧
    scnResult.total_costs = 1700 ∧
    scnResult.total_market_values = 1930 ∧
    display_simplified_comp scnResult.class_map scnResult.total_market_values
      = [(AssetClass.Stocks, 1200, 1410, F.fin (14100/193)),
         (AssetClass.Bonds, 500, 520, F.fin (5200/193))] ∧
    QAT.roundTwo (14100/193) = 7306/100 ∧
    QAT.roundTwo (5200/193) = 2694/100 := by
  have hmap : scnResult.class_map
      = [(AssetClass.Stocks, 1200, 1410), (AssetClass.Bonds, 500, 520)] := by
    norm_num +decide [scnResult, scnStart, scnP1, scnP2, scnP3, Assets.add_positions,
      Assets.add_position, Assets.new, Assets.classify, alookup, entryAdd, List.foldl]
  have htot : scnResult.total_market_values = 1930 := by
    norm_num [scnResult, scnStart, scnP1, scnP2, scnP3, Assets.add_positions,
      Assets.add_position, Assets.new, List.foldl]
  refine ⟨?_, hmap, ?_, htot, ?_, ?_, ?_⟩
  · norm_num +decide [scnResult, scnStart, scnP1, scnP2, scnP3, Assets.add_positions,
      Assets.add_position, Assets.new, Assets.classify, alookup, entryAdd, List.foldl]
  · norm_num [scnResult, scnStart, scnP1, scnP2, scnP3, Assets.add_positions,
      Assets.add_position, Assets.new, List.foldl]
  · rw [hmap, htot]
    norm_num [display_simplified_comp, get_simplified_comp, sortByValDesc,
      List.mergeSort, F.mul, F.div]
  · norm_num [QAT.roundTwo, roundHalfAway]
  · norm_num [QAT.roundTwo, roundHalfAway]

/-! ### C10: P&L colouring and the NaN panic -/

/-- C10: `colour_pnl` is total on every non-NaN input — a finite value is
coloured green when it rounds (at two decimals) to a positive value, red when
it rounds negative, and plain when it rounds to zero, and the infinities are
coloured green and red — but on NaN the `partial_cmp(..).unwrap()` has no
value (the code panics), so a NaN P&L aborts rendering. -/
theorem colour_pnl_total_except_nan :
    (∀ q : ℚ, colour_pnl (F.fin q) =
      some (if 0 < QAT.roundTwo q then Colour.green
            else if QAT.roundTwo q < 0 then Colour.red
            else Colour.normal)) ∧
    colour_pnl F.nan = none ∧
    colour_pnl F.inf = some Colour.green ∧
    colour_pnl F.ninf = some Colour.red ∧
    (∀ x : F, (colour_pnl x).isSome ↔ x ≠ F.nan) := by
  have hfin : ∀ q : ℚ, colour_pnl (F.fin q) =
      some (if 0 < QAT.roundTwo q then Colour.green
            else if QAT.roundTwo q < 0 then Colour.red
            else Colour.normal) := by
    intro q
    unfold colour_pnl F.roundTwo F.cmpZero
    rcases lt_trichotomy 0 (QAT.roundTwo q) with h | h | h
    · rw [if_pos h]
      simp [h]
    · have h0 : QAT.roundTwo q = 0 := h.symm
      simp [h0]
    · rw [if_neg (not_lt_of_lt h), if_pos h]
      simp [not_lt_of_lt h, h]
  refine ⟨hfin, rfl, rfl, rfl, ?_⟩
  intro x
  cases x with
  | nan => simp [colour_pnl, F.roundTwo, F.cmpZero]
  | inf => simp [colour_pnl, F.roundTwo, F.cmpZero]
  | ninf => simp [colour_pnl, F.roundTwo, F.cmpZero]
  | fin q =>
    rw [hfin q]
    simp

end QAT
